import Mathlib

/-!
Verification development for the `markc` text preprocessor.

The Rust sources (`src/main.rs`, `src/types.rs`, `src/plugin.rs`,
`src/plugins/include.rs`) are shallowly embedded below.  Rust `String`s are
modelled as `List Char`; `str::len()` (a byte count) is modelled by `byteLen`,
which sums per-character UTF-8 sizes.  Machine-integer (`usize`) arithmetic in
`parse_call` is modelled as `Nat` arithmetic modulo `2 ^ 64`.  Fallible code
returns a `RunRes`, whose `fatal` constructor models a Rust panic and whose
`diverge` constructor models non-termination / stack exhaustion (the evaluator
has no recursion limit in the source, so the embedding carries explicit fuel).
File I/O is modelled by an explicit file-system map `List Char → Option (List Char)`.
-/

namespace Markc

/-- Result of running a piece of the program: success, a recoverable error,
a fatal abort (Rust panic), or non-termination (`diverge`; the fuel of the
embedding ran out, which in the source is unbounded recursion / an unbounded
loop). -/
inductive RunRes (ε : Type) (α : Type) where
  | ok (a : α)
  | err (e : ε)
  | fatal
  | diverge
deriving DecidableEq

/-- Unicode `White_Space` code points, the predicate behind Rust's
`char::is_whitespace`. -/
def rustIsWhitespace (c : Char) : Bool :=
  decide (c.toNat = 9 ∨ c.toNat = 10 ∨ c.toNat = 11 ∨ c.toNat = 12 ∨ c.toNat = 13 ∨
    c.toNat = 32 ∨ c.toNat = 0x85 ∨ c.toNat = 0xA0 ∨ c.toNat = 0x1680 ∨
    (0x2000 ≤ c.toNat ∧ c.toNat ≤ 0x200A) ∨ c.toNat = 0x2028 ∨ c.toNat = 0x2029 ∨
    c.toNat = 0x202F ∨ c.toNat = 0x205F ∨ c.toNat = 0x3000)

/-- ASCII fragment of Rust's `char::is_alphanumeric` (digits and Latin
letters).  The source predicate also accepts non-ASCII alphabetic code points;
every claim below quantifies only over names this fragment covers, or uses it
in a hypothesis, so the restriction is sound for the statements made here. -/
def rustIsAlphanumeric (c : Char) : Bool :=
  decide ((48 ≤ c.toNat ∧ c.toNat ≤ 57) ∨ (65 ≤ c.toNat ∧ c.toNat ≤ 90) ∨
    (97 ≤ c.toNat ∧ c.toNat ≤ 122))

/-- Number of bytes of the UTF-8 encoding of a character; `str::len()` sums
these. -/
def rustUtf8Size (c : Char) : Nat :=
  if c.toNat < 0x80 then 1 else if c.toNat < 0x800 then 2
  else if c.toNat < 0x10000 then 3 else 4

/-- Byte length of a string, Rust's `str::len()`. -/
def byteLen (l : List Char) : Nat := (l.map rustUtf8Size).sum

/-- Rust `str::trim`: strip leading and trailing Unicode whitespace. -/
def trimChars (l : List Char) : List Char :=
  ((l.dropWhile rustIsWhitespace).reverse.dropWhile rustIsWhitespace).reverse

/-- Rust `str::ends_with(char)`. -/
def endsWithChar (l : List Char) (c : Char) : Bool := l.getLast? == some c

/-- Rust `str::strip_prefix(char)`. -/
def stripPrefixChar (c : Char) (l : List Char) : Option (List Char) :=
  match l with
  | [] => none
  | x :: t => if x = c then some t else none

/-- Rust `str::strip_suffix(char)`. -/
def stripSuffixChar (c : Char) (l : List Char) : Option (List Char) :=
  if endsWithChar l c then some l.dropLast else none

/-- Decimal digits of an ASCII numeral, most significant first. -/
def digitsToNat (l : List Char) : Nat :=
  l.foldl (fun acc c => acc * 10 + (c.toNat - 48)) 0

/-- All characters are ASCII decimal digits. -/
def allDigits (l : List Char) : Bool :=
  l.all (fun c => decide (48 ≤ c.toNat ∧ c.toNat ≤ 57))

/-- Rust `str::parse::<i64>()`: optional sign, at least one digit, nothing
else, and the value must fit in a signed 64-bit integer. -/
def parseI64 (l : List Char) : Option Int :=
  match l with
  | '-' :: t =>
    if t ≠ [] ∧ allDigits t then
      if digitsToNat t ≤ 2 ^ 63 then some (-(digitsToNat t : Int)) else none
    else none
  | '+' :: t =>
    if t ≠ [] ∧ allDigits t then
      if digitsToNat t ≤ 2 ^ 63 - 1 then some (digitsToNat t : Int) else none
    else none
  | _ =>
    if l ≠ [] ∧ allDigits l then
      if digitsToNat l ≤ 2 ^ 63 - 1 then some (digitsToNat l : Int) else none
    else none

/-- The `Type` enum of `src/types.rs` (parameter types of a declared
signature); named `Ty` because `Type` is reserved in Lean. -/
inductive Ty where
  | String
  | Path
  | Number
deriving DecidableEq

/-- The `Value` enum of `src/types.rs`: a literal call argument. -/
inductive Value where
  | String (s : List Char)
  | Path (p : List Char)
  | Number (n : Int)
deriving DecidableEq

/-- The `Function` struct of `src/types.rs`: a capability a plugin exposes. -/
structure Function where
  name : List Char
  signatures : List (List Ty)

/-- The `MarkdownPart` enum of `src/main.rs`: a literal text node or an
unresolved call node, each carrying its source path. -/
inductive MarkdownPart where
  | Text (content : List Char) (source : List Char)
  | Call (function : List Char) (arguments : List Value) (source : List Char)
deriving DecidableEq

/-- Discriminator: is this part a `Text` node? -/
def MarkdownPart.isText : MarkdownPart → Bool
  | .Text .. => true
  | .Call .. => false

/-- Content field of a `Text` node (empty for a `Call`). -/
def MarkdownPart.contentOf : MarkdownPart → List Char
  | .Text c _ => c
  | .Call .. => []

/-- The `CallParseError` enum of `src/main.rs`.  `ParseIntError` drops the
opaque payload of `std::num::ParseIntError`. -/
inductive CallParseError where
  | InvalidSymbol (c : Char)
  | EmptyArgument
  | UnclosedLiteral
  | ParseIntError
deriving DecidableEq

mutual
/-- The `PluginError` enum of `src/main.rs`; its `CompilationError` variant
boxes the mutually recursive top-level error. -/
inductive PluginError where
  | FunctionNotFound (name : List Char)
  | InvalidArguments
  | ExternalError (msg : List Char)
  | CompilationError (e : Markc.CompilationError)

/-- The `CompilationError` enum of `src/main.rs`.  `IOError` drops the opaque
`std::io::Error` payload. -/
inductive CompilationError where
  | PluginError (e : Markc.PluginError)
  | IOError
  | CallParseError (e : Markc.CallParseError)
end

/-- Discriminator: is this plugin error the `ExternalError` variant? -/
def PluginError.isExternal : PluginError → Bool
  | .ExternalError _ => true
  | _ => false

/-- Discriminator on a plugin-call result: did it fail with `ExternalError`? -/
def resultIsExternal (r : RunRes PluginError (List MarkdownPart)) : Bool :=
  match r with
  | .err e => e.isExternal
  | _ => false

/-- The `Context` struct of `src/main.rs`: the base directory handed to a
plugin. -/
structure Context where
  path : List Char

/-- The `Plugin` trait of `src/main.rs`, as a record of its two methods. -/
structure Plugin where
  exposed_functions : List Function
  function_called : List Char → List Value → Context → RunRes PluginError (List MarkdownPart)

/-- The `parse_arg` function of `src/main.rs`: trim the buffer and classify it
by its first character (`#…#` path literal, `"…"` string literal, otherwise a
signed integer).  The `unwrap` calls after `strip_prefix`/`strip_suffix` can
panic (on the one-character buffers `#` and `"`), modelled by `.fatal`. -/
def parse_arg (buf : List Char) : RunRes CallParseError Value :=
  match (trimChars buf).head? with
  | none => .err .EmptyArgument
  | some '#' =>
    if endsWithChar (trimChars buf) '#' then
      match stripPrefixChar '#' (trimChars buf) with
      | none => .fatal
      | some t =>
        match stripSuffixChar '#' t with
        | none => .fatal
        | some p => .ok (.Path p)
    else .err .UnclosedLiteral
  | some '"' =>
    if endsWithChar (trimChars buf) '"' then
      match stripPrefixChar '"' (trimChars buf) with
      | none => .fatal
      | some t =>
        match stripSuffixChar '"' t with
        | none => .fatal
        | some s => .ok (.String s)
    else .err .UnclosedLiteral
  | some _ =>
    match parseI64 (trimChars buf) with
    | none => .err .ParseIntError
    | some n => .ok (.Number n)

/-- Modulus of `usize` arithmetic (64-bit target). -/
def M64 : Nat := 2 ^ 64

/-- Wrapping decrement of a `usize` counter (`i -= 1` in release mode). -/
def wrapDec (i : Nat) : Nat := (i + (M64 - 1)) % M64

/-- Wrapping increment of a `usize` counter (`i += 1` in release mode). -/
def wrapInc (i : Nat) : Nat := (i + 1) % M64

/-- The `CurrentState` enum local to `parse_call`. -/
inductive CallCS where
  | Start
  | FunctionName
  | FunctionArgs
deriving DecidableEq

/-- The mutable locals of `parse_call`. -/
structure CallSt where
  in_path : Bool
  in_string : Bool
  function_name : List Char
  args : List Value
  buf : List Char

/-- Outcome of one iteration of the `parse_call` loop: either the loop ends
with a result (`done`, covering normal exit, `break`, `return Err`, and
panics) or it continues at a new position, state, and register assignment. -/
inductive StepRes where
  | done (r : RunRes CallParseError (List Char × List Value))
  | next (i : Nat) (cs : CallCS) (st : CallSt)

/-- One iteration of the `while i < buffer.len()` loop of `parse_call` in
`src/main.rs`, including the trailing `i += 1`.  The loop bound `L` is the
BYTE length of the buffer while the fetch
`buffer.chars().skip(i).next().unwrap()` indexes CHARACTERS; a failed fetch is
the panic of that `unwrap` (`.fatal`).  In the `Start` state on a
non-whitespace character the source does `i -= 1` and then the loop's
`i += 1`, which is the wrapping `wrapInc (wrapDec i)`. -/
def parseCallStep (buffer : List Char) (L i : Nat) (cs : CallCS) (st : CallSt) : StepRes :=
  if i < L then
    match (buffer.drop i).head? with
    | none => .done .fatal
    | some c =>
      match cs with
      | .Start =>
        if rustIsWhitespace c then .next (wrapInc i) .Start st
        else .next (wrapInc (wrapDec i)) .FunctionName st
      | .FunctionName =>
        if rustIsAlphanumeric c then
          .next (wrapInc i) .FunctionName { st with buf := st.buf ++ [c] }
        else if rustIsWhitespace c then .next (wrapInc i) .FunctionName st
        else if c = '(' then
          .next (wrapInc i) .FunctionArgs { st with function_name := st.buf, buf := [] }
        else .done (.err (.InvalidSymbol c))
      | .FunctionArgs =>
        let in_string := if c = '"' && !st.in_path then !st.in_string else st.in_string
        let in_path := if c = '#' && !in_string then !st.in_path else st.in_path
        if in_path || in_string then
          .next (wrapInc i) .FunctionArgs
            { st with in_path := in_path, in_string := in_string, buf := st.buf ++ [c] }
        else if c = ')' then
          match parse_arg st.buf with
          | .ok v => .done (.ok (st.function_name, st.args ++ [v]))
          | .err e => .done (.err e)
          | .fatal => .done .fatal
          | .diverge => .done .diverge
        else if c = ',' then
          match parse_arg st.buf with
          | .ok v =>
            .next (wrapInc i) .FunctionArgs
              { st with in_path := in_path, in_string := in_string,
                        args := st.args ++ [v], buf := [] }
          | .err e => .done (.err e)
          | .fatal => .done .fatal
          | .diverge => .done .diverge
        else
          .next (wrapInc i) .FunctionArgs
            { st with in_path := in_path, in_string := in_string, buf := st.buf ++ [c] }
  else .done (.ok (st.function_name, st.args))

/-- The `while` loop of `parse_call`, iterating `parseCallStep`.  `fuel`
bounds the number of iterations (the source loop is bounded because `i`
strictly increases after the single `Start`→`FunctionName` stall;
`parse_call` below passes enough fuel for every real execution). -/
def parseCallLoop (buffer : List Char) (L : Nat) :
    Nat → Nat → CallCS → CallSt → RunRes CallParseError (List Char × List Value)
  | 0, i, cs, st =>
    match parseCallStep buffer L i cs st with
    | .done r => r
    | .next _ _ _ => .diverge
  | fuel + 1, i, cs, st =>
    match parseCallStep buffer L i cs st with
    | .done r => r
    | .next j cs2 st2 => parseCallLoop buffer L fuel j cs2 st2

/-- The `parse_call` function of `src/main.rs`: three-state scan of a call
body yielding the function name and argument list.  The fuel `byteLen buffer + 2`
covers every iteration the source loop can make (positions `0 … L-1` plus the
one stall). -/
def parse_call (buffer : List Char) : RunRes CallParseError (List Char × List Value) :=
  parseCallLoop buffer (byteLen buffer) (byteLen buffer + 2) 0 .Start
    ⟨false, false, [], [], []⟩

/-- The `CurrentState` enum local to `parse_md`. -/
inductive SegState where
  | InText
  | InCall
deriving DecidableEq

/-- The character loop of `parse_md` in `src/main.rs` (the Segmenter): a
two-state scan that splits the input into `Text` and `Call` parts.  `{{` is
detected by seeing `{` while the accumulated buffer already ends with `{`
(symmetrically for `}}`); the trailing buffer is always emitted as a final
`Text` part. -/
def segmentLoop (path : List Char) :
    List Char → SegState → List Char → List MarkdownPart → RunRes CompilationError (List MarkdownPart)
  | [], _, buf, parts => .ok (parts ++ [.Text buf path])
  | c :: rest, .InText, buf, parts =>
    if c == '{' && endsWithChar buf '{' then
      segmentLoop path rest .InCall [] (parts ++ [.Text buf.dropLast path])
    else
      segmentLoop path rest .InText (buf ++ [c]) parts
  | c :: rest, .InCall, buf, parts =>
    if c == '}' && endsWithChar buf '}' then
      match parse_call buf.dropLast with
      | .ok (function, arguments) =>
        segmentLoop path rest .InText [] (parts ++ [.Call function arguments path])
      | .err e => .err (.CallParseError e)
      | .fatal => .fatal
      | .diverge => .diverge
    else
      segmentLoop path rest .InCall (buf ++ [c]) parts

/-- Segmenting a document's content (the pure part of `parse_md`). -/
def segment (content path : List Char) : RunRes CompilationError (List MarkdownPart) :=
  segmentLoop path content .InText [] []

/-- The `parse_md` function of `src/main.rs`: read the file through the
explicit file-system map `fs` (a failed read is `IOError`, the effect of the
`?` on `std::fs::read_to_string`) and segment its content. -/
def parse_md (fs : List Char → Option (List Char)) (path : List Char) :
    RunRes CompilationError (List MarkdownPart) :=
  match fs path with
  | none => .err .IOError
  | some content => segment content path

/-- Rust `Path::parent` followed by the source's `unwrap`-site convention:
`none` for an empty or root path (where the source would panic), otherwise
everything before the last `/` (empty if there is none). -/
def parentPath (l : List Char) : Option (List Char) :=
  if l = [] ∨ l = ['/'] then none
  else some (((l.reverse.dropWhile (fun c => !(c == '/'))).drop 1).reverse)

/-- Rust `PathBuf::join`, simplified: an absolute right operand replaces the
base, otherwise the components are joined with `/`. -/
def joinPath (base p : List Char) : List Char :=
  if p.head? = some '/' then p else base ++ '/' :: p

/-- The registry rule of `evaluate` in `src/main.rs`: the first plugin (in
registration order) whose `exposed_functions` names contain the requested
function. -/
def findPlugin (plugins : List Plugin) (f : List Char) : Option Plugin :=
  plugins.find? (fun pl => (pl.exposed_functions.map Function.name).contains f)

/-- One pass of the `evaluate` loop of `src/main.rs` over a part list, with
the recursive evaluation of a plugin's returned parts abstracted as `nested`.
`Text` parts pass through; for a `Call` part the context is built from the
parent of its source (`unwrap` panic modelled by `.fatal`), the first
matching plugin is invoked and its output recursively evaluated — and, as in
the source, a call matching NO plugin is silently dropped. -/
def evalList (nested : List MarkdownPart → List Plugin → RunRes PluginError (List MarkdownPart)) :
    List MarkdownPart → List Plugin → RunRes PluginError (List MarkdownPart)
  | [], _ => .ok []
  | .Text content source :: rest, plugins =>
    match evalList nested rest plugins with
    | .ok parts => .ok (.Text content source :: parts)
    | r => r
  | .Call function arguments source :: rest, plugins =>
    match parentPath source with
    | none => .fatal
    | some dir =>
      match findPlugin plugins function with
      | none => evalList nested rest plugins
      | some pl =>
        match pl.function_called function arguments ⟨dir⟩ with
        | .ok returned =>
          match nested returned plugins with
          | .ok inner =>
            match evalList nested rest plugins with
            | .ok restParts => .ok (inner ++ restParts)
            | r => r
          | r => r
        | .err e => .err e
        | .fatal => .fatal
        | .diverge => .diverge

/-- The `evaluate` function of `src/main.rs`.  `fuel` bounds the nesting
depth of the recursion on plugin output (unbounded in the source: a cyclic
include overflows the stack, here `.diverge`). -/
def evaluate : Nat → List MarkdownPart → List Plugin → RunRes PluginError (List MarkdownPart)
  | 0, doc, plugins => evalList (fun _ _ => .diverge) doc plugins
  | fuel + 1, doc, plugins => evalList (evaluate fuel) doc plugins

/-- The `rebuild` function of `src/main.rs` (the Renderer): concatenate the
`content` of `Text` parts in order; a `Call` part hits the
`panic!("Call in rebuild")` assertion, modelled by `none`. -/
def rebuild : List MarkdownPart → Option (List Char)
  | [] => some []
  | .Text content _ :: rest =>
    match rebuild rest with
    | some s => some (content ++ s)
    | none => none
  | .Call .. :: _ => none

/-- The `Core` plugin of `src/main.rs` (identical to `IncludePlugin` in
`src/plugins/include.rs`), parameterized by the file-system map used by
`parse_md`: exposes `include(path)`, which joins the path onto the context's
base directory, re-parses that file, and wraps any failure in the nested
`CompilationError` variant of `PluginError`. -/
def Core (fs : List Char → Option (List Char)) : Plugin where
  exposed_functions := [⟨"include".data, [[Ty.Path]]⟩]
  function_called := fun f args ctx =>
    if f = "include".data then
      match args.head? with
      | none => .err .InvalidArguments
      | some (Value.Path p) =>
        match parse_md fs (joinPath ctx.path p) with
        | .ok parts => .ok parts
        | .err e => .err (.CompilationError e)
        | .fatal => .fatal
        | .diverge => .diverge
      | some _ => .err .InvalidArguments
    else .err (.FunctionNotFound f)

/-- Statement-side helper: the text contains two adjacent `{` characters
(the opening call delimiter of the Segmenter). -/
def hasOpenMarker : List Char → Bool
  | [] => false
  | c :: rest => (c == '{' && rest.head? == some '{') || hasOpenMarker rest

/-! ### Helper lemmas -/

theorem parseCallLoop_succ (buffer : List Char) (L fuel i : Nat) (cs : CallCS) (st : CallSt) :
    parseCallLoop buffer L (fuel + 1) i cs st
      = match parseCallStep buffer L i cs st with
        | .done r => r
        | .next j cs2 st2 => parseCallLoop buffer L fuel j cs2 st2 := rfl

theorem one_le_rustUtf8Size (c : Char) : 1 ≤ rustUtf8Size c := by
  simp only [rustUtf8Size]
  split
  · omega
  split
  · omega
  split <;> omega

theorem byteLen_cons (c : Char) (l : List Char) :
    byteLen (c :: l) = rustUtf8Size c + byteLen l := by
  simp [byteLen]

/-! ### Claim theorems -/

/-- Claim C1 (evidence of the code bug): evaluating a document whose single
node is a call to the unregistered name `nope`, against the registry
containing only the `Core` plugin, returns `Ok []` — the call is silently
dropped by the dispatch loop of `evaluate`, and no `FunctionNotFound("nope")`
error is produced.  The spec (and the `FunctionNotFound` variant the source
defines for exactly this message) say the evaluation must fail. -/
theorem c1_unregistered_call_dropped :
    evaluate 1 [.Call "nope".data [] "doc.md".data] [Core (fun _ => none)] = .ok [] := rfl

/-- Claim C2 counterexample: invoking the built-in `include` capability when
the target file cannot be read (the file-system map returns `none` for every
path) yields the nested-`CompilationError` variant wrapping `IOError`, not
`ExternalError` as the claim states. -/
theorem c2_counterexample :
    (Core (fun _ => none)).function_called "include".data [Value.Path "x.md".data] ⟨[]⟩
        = .err (.CompilationError .IOError)
    ∧ resultIsExternal
        ((Core (fun _ => none)).function_called "include".data [Value.Path "x.md".data] ⟨[]⟩)
        = false :=
  ⟨rfl, rfl⟩

/-- Claim C3 counterexample: the zero-argument call body `f()` does NOT parse
successfully; on `)` the scanner always closes a (here empty) argument, and
classifying the empty buffer fails with `EmptyArgument`. -/
theorem c3_counterexample : parse_call "f()".data = .err .EmptyArgument := by decide

/-- Claim C4 counterexample: the call body `f(#abc)` contains the argument
text `#abc` whose path literal is missing its closing `#`, yet `parse_call`
does not fail with `UnclosedLiteral`: the open literal makes `)` literal
content, the loop ends at end-of-input, and parsing succeeds with the
argument dropped. -/
theorem c4_counterexample :
    parse_call "f(#abc)".data = .ok ("f".data, [])
    ∧ parse_call "f(#abc)".data ≠ .err .UnclosedLiteral :=
  ⟨by decide, by decide⟩

/-- Claim C8: parsing the well-formed call body `f(#a#, "b", 3)` succeeds and
yields the function name `f` with arguments `[Path "a", String "b", Number 3]`
in order. -/
theorem c8_wellformed_call :
    parse_call "f(#a#, \"b\", 3)".data
      = .ok ("f".data, [.Path "a".data, .String "b".data, .Number 3]) := by decide

/-- Claim C9: `parse_call` panics on the call body `f(é`: the scan loop is
bounded by the body's byte length (4) while characters are fetched by
character index (3 characters), so with no structural `)` the index runs past
the last character and the `unwrap` of `None` panics (`.fatal`). -/
theorem c9_multibyte_fatal : parse_call "f(é".data = .fatal := by decide

/-- Claim C10: on a call body whose first character (position 0) is not
whitespace, the first iteration of `parse_call` decrements the unsigned
position below zero — wrapping to `2 ^ 64 - 1` — and the loop's increment
restores position 0, so the same character is reprocessed in the
`FunctionName` state: `parse_call` continues exactly at position 0 with the
state advanced. -/
theorem c10_wraparound (c : Char) (rest : List Char) (h : rustIsWhitespace c = false) :
    parse_call (c :: rest)
      = parseCallLoop (c :: rest) (byteLen (c :: rest)) (byteLen (c :: rest) + 1)
          (wrapInc (wrapDec 0)) .FunctionName ⟨false, false, [], [], []⟩
    ∧ wrapDec 0 = 2 ^ 64 - 1 ∧ wrapInc (wrapDec 0) = 0 := by
  have hL : 0 < byteLen (c :: rest) := by
    have h1 := one_le_rustUtf8Size c
    have h2 := byteLen_cons c rest
    omega
  refine ⟨?_, by decide, by decide⟩
  show parseCallLoop (c :: rest) (byteLen (c :: rest)) (byteLen (c :: rest) + 1 + 1) 0 .Start
      ⟨false, false, [], [], []⟩ = _
  rw [parseCallLoop_succ]
  have hstep : parseCallStep (c :: rest) (byteLen (c :: rest)) 0 .Start ⟨false, false, [], [], []⟩
      = .next (wrapInc (wrapDec 0)) .FunctionName ⟨false, false, [], [], []⟩ := by
    simp [parseCallStep, hL, h]
  rw [hstep]

/-- Witness for C10 at the concrete body `f()`. -/
theorem c10_wraparound_witness :
    rustIsWhitespace 'f' = false
    ∧ (parse_call ('f' :: "()".data)
        = parseCallLoop ('f' :: "()".data) (byteLen ('f' :: "()".data))
            (byteLen ('f' :: "()".data) + 1) (wrapInc (wrapDec 0)) .FunctionName
            ⟨false, false, [], [], []⟩
      ∧ wrapDec 0 = 2 ^ 64 - 1 ∧ wrapInc (wrapDec 0) = 0) :=
  ⟨by decide, c10_wraparound 'f' "()".data (by decide)⟩

/-- Claim C7: the Renderer returns the in-order concatenation of the `content`
fields when every node is a `Text` node, and aborts fatally (`none`, the
`panic!` in `rebuild`) when any `Call` node is present. -/
theorem c7_rebuild :
    (∀ doc : List MarkdownPart, (∀ p ∈ doc, p.isText = true) →
      rebuild doc = some ((doc.map MarkdownPart.contentOf).flatten))
    ∧ (∀ doc : List MarkdownPart, (∃ p ∈ doc, p.isText = false) → rebuild doc = none) := by
  constructor
  · intro doc h
    induction doc with
    | nil => rfl
    | cons p rest ih =>
      cases p with
      | Text content source =>
        have hr := ih (fun q hq => h q (List.mem_cons_of_mem _ hq))
        simp [rebuild, hr, MarkdownPart.contentOf]
      | Call f a s =>
        have := h _ (List.mem_cons_self _ _)
        simp [MarkdownPart.isText] at this
  · intro doc h
    induction doc with
    | nil => simp at h
    | cons p rest ih =>
      cases p with
      | Text content source =>
        obtain ⟨q, hq, hq2⟩ := h
        rcases List.mem_cons.mp hq with rfl | hmem
        · simp [MarkdownPart.isText] at hq2
        · have hr := ih ⟨q, hmem, hq2⟩
          simp [rebuild, hr]
      | Call f a s => rfl

/-- Witness for C7: a two-text document renders to the concatenation, and a
document containing a call aborts. -/
theorem c7_rebuild_witness :
    (∀ p ∈ [MarkdownPart.Text "ab".data "d".data, MarkdownPart.Text "c".data "d".data],
      p.isText = true)
    ∧ rebuild [MarkdownPart.Text "ab".data "d".data, MarkdownPart.Text "c".data "d".data]
        = some (([MarkdownPart.Text "ab".data "d".data,
            MarkdownPart.Text "c".data "d".data].map MarkdownPart.contentOf).flatten)
    ∧ (∃ p ∈ [MarkdownPart.Call "f".data [] "d".data], p.isText = false)
    ∧ rebuild [MarkdownPart.Call "f".data [] "d".data] = none :=
  ⟨by decide, c7_rebuild.1 _ (by decide), by decide, c7_rebuild.2 _ (by decide)⟩

theorem hasOpenMarker_append_marker (xs r : List Char) :
    hasOpenMarker (xs ++ '{' :: '{' :: r) = true := by
  induction xs with
  | nil => simp [hasOpenMarker]
  | cons x t ih => simp [hasOpenMarker, ih]

theorem endsWithChar_decomp (l : List Char) (c : Char) (h : endsWithChar l c = true) :
    ∃ t, l = t ++ [c] := by
  induction l with
  | nil => simp [endsWithChar] at h
  | cons x t ih =>
    cases t with
    | nil =>
      simp [endsWithChar] at h
      exact ⟨[], by simp [h]⟩
    | cons y u =>
      have h2 : endsWithChar (y :: u) c = true := by
        simpa [endsWithChar, List.getLast?_cons_cons] using h
      obtain ⟨t', ht⟩ := ih h2
      exact ⟨x :: t', by simp [ht]⟩

theorem segmentLoop_nil (path buf : List Char) (state : SegState) (parts : List MarkdownPart) :
    segmentLoop path [] state buf parts = .ok (parts ++ [.Text buf path]) := rfl

theorem segmentLoop_cons_inText (path : List Char) (c : Char) (rest buf : List Char)
    (parts : List MarkdownPart) :
    segmentLoop path (c :: rest) .InText buf parts
      = if c == '{' && endsWithChar buf '{' then
          segmentLoop path rest .InCall [] (parts ++ [.Text buf.dropLast path])
        else segmentLoop path rest .InText (buf ++ [c]) parts := rfl

theorem segmentLoop_noMarker (rest : List Char) :
    ∀ (buf : List Char) (parts : List MarkdownPart) (path : List Char),
      hasOpenMarker (buf ++ rest) = false →
      segmentLoop path rest .InText buf parts = .ok (parts ++ [.Text (buf ++ rest) path]) := by
  induction rest with
  | nil =>
    intro buf parts path _
    simp [segmentLoop_nil]
  | cons c rest ih =>
    intro buf parts path h
    cases hEq : (c == '{' && endsWithChar buf '{') with
    | true =>
      exfalso
      obtain ⟨h1, h2⟩ := Bool.and_eq_true_iff.mp hEq
      obtain rfl : c = '{' := by simpa using h1
      obtain ⟨t, rfl⟩ := endsWithChar_decomp buf '{' h2
      rw [show (t ++ ['{']) ++ '{' :: rest = t ++ '{' :: '{' :: rest by simp] at h
      rw [hasOpenMarker_append_marker] at h
      simp at h
    | false =>
      rw [segmentLoop_cons_inText]
      rw [hEq]
      simp only [Bool.false_eq_true, if_false]
      have h2 : hasOpenMarker ((buf ++ [c]) ++ rest) = false := by
        rw [List.append_assoc]
        simpa using h
      have := ih (buf ++ [c]) parts path h2
      rw [this]
      simp

/-- Claim C6: for input text containing no `{{` opener (hence no call
sequence), segmenting and then rendering returns the original text unchanged:
segmentation yields a single `Text` node holding the whole input and the
Renderer concatenates it back. -/
theorem c6_roundtrip (text src : List Char) (h : hasOpenMarker text = false) :
    ∃ parts, segment text src = .ok parts ∧ rebuild parts = some text := by
  refine ⟨[.Text text src], ?_, ?_⟩
  · show segmentLoop src text .InText [] [] = _
    have := segmentLoop_noMarker text [] [] src (by simpa using h)
    simpa using this
  · simp [rebuild]

/-- Witness for C6 at concrete plain text. -/
theorem c6_roundtrip_witness :
    hasOpenMarker "hello world".data = false
    ∧ ∃ parts, segment "hello world".data "doc.md".data = .ok parts
        ∧ rebuild parts = some "hello world".data :=
  ⟨by decide, c6_roundtrip "hello world".data "doc.md".data (by decide)⟩

theorem evalList_ok_isText
    (nested : List MarkdownPart → List Plugin → RunRes PluginError (List MarkdownPart))
    (hn : ∀ d p out, nested d p = .ok out → ∀ x ∈ out, x.isText = true) :
    ∀ (doc : List MarkdownPart) (plugins : List Plugin) (out : List MarkdownPart),
      evalList nested doc plugins = .ok out → ∀ x ∈ out, x.isText = true := by
  intro doc
  induction doc with
  | nil =>
    intro plugins out h x hx
    simp only [evalList] at h
    obtain rfl : ([] : List MarkdownPart) = out := by simpa using h
    simp at hx
  | cons p rest ih =>
    intro plugins out h x hx
    cases p with
    | Text content source =>
      simp only [evalList] at h
      cases hr : evalList nested rest plugins with
      | ok parts =>
        rw [hr] at h
        obtain rfl : MarkdownPart.Text content source :: parts = out := by simpa using h
        rcases List.mem_cons.mp hx with rfl | hmem
        · rfl
        · exact ih plugins parts hr x hmem
      | err e => rw [hr] at h; simp at h
      | fatal => rw [hr] at h; simp at h
      | diverge => rw [hr] at h; simp at h
    | Call function arguments source =>
      cases hpp : parentPath source with
      | none => simp only [evalList, hpp] at h; simp at h
      | some dir =>
        cases hfp : findPlugin plugins function with
        | none =>
          simp only [evalList, hpp, hfp] at h
          exact ih plugins out h x hx
        | some pl =>
          cases hfc : pl.function_called function arguments ⟨dir⟩ with
          | ok returned =>
            cases hnest : nested returned plugins with
            | ok inner =>
              cases hrest : evalList nested rest plugins with
              | ok restParts =>
                simp only [evalList, hpp, hfp, hfc, hnest, hrest] at h
                obtain rfl : inner ++ restParts = out := by simpa using h
                rcases List.mem_append.mp hx with hmem | hmem
                · exact hn returned plugins inner hnest x hmem
                · exact ih plugins restParts hrest x hmem
              | err e => simp only [evalList, hpp, hfp, hfc, hnest, hrest] at h; simp at h
              | fatal => simp only [evalList, hpp, hfp, hfc, hnest, hrest] at h; simp at h
              | diverge => simp only [evalList, hpp, hfp, hfc, hnest, hrest] at h; simp at h
            | err e => simp only [evalList, hpp, hfp, hfc, hnest] at h; simp at h
            | fatal => simp only [evalList, hpp, hfp, hfc, hnest] at h; simp at h
            | diverge => simp only [evalList, hpp, hfp, hfc, hnest] at h; simp at h
          | err e => simp only [evalList, hpp, hfp, hfc] at h; simp at h
          | fatal => simp only [evalList, hpp, hfp, hfc] at h; simp at h
          | diverge => simp only [evalList, hpp, hfp, hfc] at h; simp at h

/-- Claim C5: a successful result of `evaluate` contains only `Text` nodes —
no `Call` node remains — so the Evaluator's output always satisfies the
Renderer's input invariant. -/
theorem c5_evaluate_only_text :
    ∀ (fuel : Nat) (doc : List MarkdownPart) (plugins : List Plugin) (out : List MarkdownPart),
      evaluate fuel doc plugins = .ok out → ∀ x ∈ out, x.isText = true := by
  intro fuel
  induction fuel with
  | zero =>
    intro doc plugins out h
    exact evalList_ok_isText _ (fun d p o hh => RunRes.noConfusion hh) doc plugins out h
  | succ n ih =>
    intro doc plugins out h
    exact evalList_ok_isText _ (fun d p o hh => ih d p o hh) doc plugins out h

/-- Witness for C5 at a concrete one-node document. -/
theorem c5_evaluate_only_text_witness :
    evaluate 1 [MarkdownPart.Text "x".data "d".data] [] = .ok [MarkdownPart.Text "x".data "d".data]
    ∧ ∀ x ∈ [MarkdownPart.Text "x".data "d".data], x.isText = true :=
  ⟨rfl, c5_evaluate_only_text 1 [MarkdownPart.Text "x".data "d".data] []
    [MarkdownPart.Text "x".data "d".data] rfl⟩

/-- Claim C2 (amended): when the resolved target file cannot be read, the
`include` capability fails with the nested-`CompilationError` variant
wrapping `IOError` (not `ExternalError`); when the file reads but fails to
parse, it fails with the nested `CompilationError` wrapping the parse error;
and no invocation of the provider ever returns `ExternalError`. -/
theorem c2_amended :
    (∀ (fs : List Char → Option (List Char)) (ctx : Context) (p : List Char),
      fs (joinPath ctx.path p) = none →
      (Core fs).function_called "include".data [Value.Path p] ctx
        = .err (.CompilationError .IOError))
    ∧ (∀ (fs : List Char → Option (List Char)) (ctx : Context) (p content : List Char)
        (e : CompilationError),
      fs (joinPath ctx.path p) = some content →
      segment content (joinPath ctx.path p) = .err e →
      (Core fs).function_called "include".data [Value.Path p] ctx
        = .err (.CompilationError e))
    ∧ (∀ (fs : List Char → Option (List Char)) (f : List Char) (args : List Value)
        (ctx : Context),
      resultIsExternal ((Core fs).function_called f args ctx) = false) := by
  refine ⟨?_, ?_, ?_⟩
  · intro fs ctx p h
    simp [Core, parse_md, h]
  · intro fs ctx p content e h1 h2
    simp [Core, parse_md, h1, h2]
  · intro fs f args ctx
    by_cases hf : f = "include".data
    · subst hf
      cases hargs : args.head? with
      | none => simp [Core, hargs, resultIsExternal, PluginError.isExternal]
      | some v =>
        cases v with
        | Path p =>
          cases hp : parse_md fs (joinPath ctx.path p) with
          | ok parts => simp [Core, hargs, hp, resultIsExternal]
          | err e => simp [Core, hargs, hp, resultIsExternal, PluginError.isExternal]
          | fatal => simp [Core, hargs, hp, resultIsExternal]
          | diverge => simp [Core, hargs, hp, resultIsExternal]
        | String s => simp [Core, hargs, resultIsExternal, PluginError.isExternal]
        | Number n => simp [Core, hargs, resultIsExternal, PluginError.isExternal]
    · simp [Core, hf, resultIsExternal, PluginError.isExternal]

/-- Witness for C2 (amended) at a file system where every read fails. -/
theorem c2_amended_witness :
    (fun _ : List Char => (none : Option (List Char))) (joinPath (Context.mk []).path "x.md".data)
        = none
    ∧ (Core (fun _ => none)).function_called "include".data [Value.Path "x.md".data] ⟨[]⟩
        = .err (.CompilationError .IOError) :=
  ⟨rfl, c2_amended.1 (fun _ => none) ⟨[]⟩ "x.md".data rfl⟩

/-- Claim C4 (amended): an argument buffer that reaches classification whose
trimmed text begins with `#` (resp. `"`) but does not end with it fails with
`UnclosedLiteral` — in particular the buffers `#abc` and `"abc` themselves —
and a call body such as `f(#a#b)`, whose argument buffer is classified at the
structural `)`, fails with `UnclosedLiteral`.  (A body like `f(#abc)` never
classifies the argument: the open literal swallows `)` and parsing succeeds
with the argument dropped, per the counterexample.) -/
theorem c4_amended :
    (∀ b : List Char, (trimChars b).head? = some '#' →
      endsWithChar (trimChars b) '#' = false → parse_arg b = .err .UnclosedLiteral)
    ∧ (∀ b : List Char, (trimChars b).head? = some '"' →
      endsWithChar (trimChars b) '"' = false → parse_arg b = .err .UnclosedLiteral)
    ∧ parse_call "f(#a#b)".data = .err .UnclosedLiteral := by
  refine ⟨?_, ?_, by decide⟩
  · intro b h1 h2
    simp [parse_arg, h1, h2]
  · intro b h1 h2
    simp [parse_arg, h1, h2]

/-- Witness for C4 (amended) at the unclosed path literal `#abc`. -/
theorem c4_amended_witness :
    (trimChars "#abc".data).head? = some '#'
    ∧ endsWithChar (trimChars "#abc".data) '#' = false
    ∧ parse_arg "#abc".data = .err .UnclosedLiteral :=
  ⟨by decide, by decide, c4_amended.1 "#abc".data (by decide) (by decide)⟩

theorem rustIsAlphanumeric_not_ws {c : Char} (h : rustIsAlphanumeric c = true) :
    rustIsWhitespace c = false := by
  simp only [rustIsAlphanumeric, decide_eq_true_eq] at h
  simp only [rustIsWhitespace, decide_eq_false_iff_not]
  omega

theorem rustUtf8Size_of_alnum {c : Char} (h : rustIsAlphanumeric c = true) :
    rustUtf8Size c = 1 := by
  simp only [rustIsAlphanumeric, decide_eq_true_eq] at h
  have hlt : c.toNat < 0x80 := by omega
  simp [rustUtf8Size, hlt]

theorem byteLen_append (l₁ l₂ : List Char) :
    byteLen (l₁ ++ l₂) = byteLen l₁ + byteLen l₂ := by
  simp [byteLen]

theorem byteLen_ascii (f : List Char) (h : ∀ c ∈ f, rustIsAlphanumeric c = true) :
    byteLen f = f.length := by
  induction f with
  | nil => rfl
  | cons c t ih =>
    rw [byteLen_cons, rustUtf8Size_of_alnum (h c (List.mem_cons_self c t)),
      ih (fun x hx => h x (List.mem_cons_of_mem _ hx))]
    simp [Nat.add_comm]

theorem wrapInc_eq {i : Nat} (h : i + 1 < M64) : wrapInc i = i + 1 := by
  unfold wrapInc
  exact Nat.mod_eq_of_lt h

/-- Trace of the `FunctionName` state of the `parse_call` loop across an
alphanumeric run `g` followed by `(`: the run is accumulated into the
function-name buffer and the loop proceeds in the `FunctionArgs` state just
past the `(`. -/
theorem parseCallLoop_fnName (buffer : List Char) (L : Nat) (hL : L < M64)
    (hBL : buffer.length ≤ L) :
    ∀ (g tail : List Char) (i fuel : Nat) (st : CallSt),
      (∀ c ∈ g, rustIsAlphanumeric c = true) →
      buffer.drop i = g ++ '(' :: tail →
      parseCallLoop buffer L (g.length + 1 + fuel) i .FunctionName st
        = parseCallLoop buffer L fuel (i + g.length + 1) .FunctionArgs
            { st with function_name := st.buf ++ g, buf := [] } := by
  intro g
  induction g with
  | nil =>
    intro tail i fuel st _ hdrop
    have hi : i < buffer.length := by
      by_contra hcon
      push_neg at hcon
      rw [List.drop_eq_nil_of_le hcon] at hdrop
      simp at hdrop
    have hiL : i < L := lt_of_lt_of_le hi hBL
    have hwi : wrapInc i = i + 1 := wrapInc_eq (by omega)
    have hhead : (buffer.drop i).head? = some '(' := by rw [hdrop]; rfl
    have ha : rustIsAlphanumeric '(' = false := by decide
    have hw : rustIsWhitespace '(' = false := by decide
    have hstep : parseCallStep buffer L i .FunctionName st
        = .next (wrapInc i) .FunctionArgs { st with function_name := st.buf, buf := [] } := by
      simp [parseCallStep, hiL, hhead, ha, hw]
    rw [show (List.length ([] : List Char)) + 1 + fuel = fuel + 1 by simp [Nat.add_comm]]
    rw [parseCallLoop_succ, hstep]
    show parseCallLoop buffer L fuel (wrapInc i) .FunctionArgs _ = _
    rw [hwi]
    simp
  | cons a g ih =>
    intro tail i fuel st halnum hdrop
    have hi : i < buffer.length := by
      by_contra hcon
      push_neg at hcon
      rw [List.drop_eq_nil_of_le hcon] at hdrop
      simp at hdrop
    have hiL : i < L := lt_of_lt_of_le hi hBL
    have hwi : wrapInc i = i + 1 := wrapInc_eq (by omega)
    have hhead : (buffer.drop i).head? = some a := by rw [hdrop]; rfl
    have ha : rustIsAlphanumeric a = true := halnum a (List.mem_cons_self a g)
    have hstep : parseCallStep buffer L i .FunctionName st
        = .next (wrapInc i) .FunctionName { st with buf := st.buf ++ [a] } := by
      simp [parseCallStep, hiL, hhead, ha]
    rw [show (a :: g).length + 1 + fuel = (g.length + 1 + fuel) + 1 by
      simp [List.length_cons]; omega]
    rw [parseCallLoop_succ, hstep]
    show parseCallLoop buffer L (g.length + 1 + fuel) (wrapInc i) .FunctionName
        { st with buf := st.buf ++ [a] } = _
    rw [hwi]
    have hdrop2 : buffer.drop (i + 1) = g ++ '(' :: tail := by
      have := congrArg List.tail hdrop
      rw [List.tail_drop] at this
      simpa using this
    rw [ih tail (i + 1) fuel { st with buf := st.buf ++ [a] }
      (fun c hc => halnum c (List.mem_cons_of_mem _ hc)) hdrop2]
    have e1 : i + 1 + g.length + 1 = i + (a :: g).length + 1 := by
      simp [List.length_cons]; omega
    have e2 : st.buf ++ [a] ++ g = st.buf ++ a :: g := by simp
    rw [e1, e2]

/-- In the `FunctionArgs` state with no open literal and an empty argument
buffer, a `)` closes an empty argument, whose classification fails with
`EmptyArgument`. -/
theorem parseCallLoop_args_close (buffer : List Char) (L i fuel : Nat)
    (fn : List Char) (args0 : List Value) (hiL : i < L)
    (hhead : (buffer.drop i).head? = some ')') :
    parseCallLoop buffer L (fuel + 1) i .FunctionArgs ⟨false, false, fn, args0, []⟩
      = .err .EmptyArgument := by
  rw [parseCallLoop_succ]
  have hpa : parse_arg ([] : List Char) = .err .EmptyArgument := rfl
  have hstep : parseCallStep buffer L i .FunctionArgs ⟨false, false, fn, args0, []⟩
      = .done (.err .EmptyArgument) := by
    simp [parseCallStep, hiL, hhead, hpa]
  rw [hstep]

/-- Claim C3 (amended): the call grammar does NOT admit zero arguments — for
every alphanumeric function name `f` (ASCII, and short enough to exist as a
real string), parsing the call body `f()` fails with `EmptyArgument`, because
`)` always closes a (here empty) argument whose classification fails. -/
theorem c3_amended (f : List Char) (halnum : ∀ c ∈ f, rustIsAlphanumeric c = true)
    (hfit : f.length + 2 < 2 ^ 64) :
    parse_call (f ++ "()".data) = .err .EmptyArgument := by
  cases f with
  | nil => decide
  | cons c0 f0 =>
    have hBL : byteLen ((c0 :: f0) ++ "()".data) = (c0 :: f0).length + 2 := by
      rw [byteLen_append, byteLen_ascii _ halnum]
      rfl
    have hlen : ((c0 :: f0) ++ "()".data).length = (c0 :: f0).length + 2 := by simp
    have hLM : (c0 :: f0).length + 2 < M64 := by
      simp only [M64]
      simpa [List.length_cons] using hfit
    have hw : rustIsWhitespace c0 = false :=
      rustIsAlphanumeric_not_ws (halnum c0 (List.mem_cons_self c0 f0))
    have h0L : 0 < (c0 :: f0).length + 2 := by omega
    have hhead0 : (((c0 :: f0) ++ "()".data).drop 0).head? = some c0 := rfl
    have hstep0 : parseCallStep ((c0 :: f0) ++ "()".data) ((c0 :: f0).length + 2) 0 .Start
          ⟨false, false, [], [], []⟩
        = .next (wrapInc (wrapDec 0)) .FunctionName ⟨false, false, [], [], []⟩ := by
      simp [parseCallStep, h0L, hhead0, hw]
    have hwrap0 : wrapInc (wrapDec 0) = 0 := by decide
    show parseCallLoop ((c0 :: f0) ++ "()".data) (byteLen ((c0 :: f0) ++ "()".data))
        (byteLen ((c0 :: f0) ++ "()".data) + 2) 0 .Start ⟨false, false, [], [], []⟩ = _
    rw [hBL]
    rw [show (c0 :: f0).length + 2 + 2 = ((c0 :: f0).length + 2 + 1) + 1 by omega]
    rw [parseCallLoop_succ, hstep0]
    show parseCallLoop ((c0 :: f0) ++ "()".data) ((c0 :: f0).length + 2)
        ((c0 :: f0).length + 2 + 1) (wrapInc (wrapDec 0)) .FunctionName
        ⟨false, false, [], [], []⟩ = _
    rw [hwrap0]
    -- consume the function name
    have hdrop0 : ((c0 :: f0) ++ "()".data).drop 0 = (c0 :: f0) ++ '(' :: [')'] := by
      rw [List.drop_zero]
    rw [show (c0 :: f0).length + 2 + 1 = (c0 :: f0).length + 1 + 2 by omega]
    rw [parseCallLoop_fnName ((c0 :: f0) ++ "()".data) ((c0 :: f0).length + 2) hLM
      (le_of_eq hlen) (c0 :: f0) [')'] 0 2 ⟨false, false, [], [], []⟩ halnum hdrop0]
    -- final step: `)` closes the empty argument, which fails classification
    have hi2L : 0 + (c0 :: f0).length + 1 < (c0 :: f0).length + 2 := by omega
    have hdrop2 : ((c0 :: f0) ++ "()".data).drop (0 + (c0 :: f0).length + 1) = [')'] := by
      rw [show ("()".data : List Char) = ['('] ++ [')'] from rfl]
      rw [show ((c0 :: f0) ++ (['('] ++ [')'])) = ((c0 :: f0) ++ ['(']) ++ [')'] by simp]
      rw [show 0 + (c0 :: f0).length + 1 = ((c0 :: f0) ++ ['(']).length + 0 by simp]
      rw [List.drop_append]
      rfl
    have hhead2 : (((c0 :: f0) ++ "()".data).drop (0 + (c0 :: f0).length + 1)).head?
        = some ')' := by rw [hdrop2]; rfl
    exact parseCallLoop_args_close ((c0 :: f0) ++ "()".data) ((c0 :: f0).length + 2)
      (0 + (c0 :: f0).length + 1) 1 ([] ++ (c0 :: f0)) [] hi2L hhead2

/-- Witness for C3 (amended) at the concrete name `fn42`. -/
theorem c3_amended_witness :
    (∀ c ∈ "fn42".data, rustIsAlphanumeric c = true)
    ∧ "fn42".data.length + 2 < 2 ^ 64
    ∧ parse_call ("fn42".data ++ "()".data) = .err .EmptyArgument :=
  ⟨by decide, by decide, c3_amended "fn42".data (by decide) (by decide)⟩

end Markc
